import Mathlib

/-!
# Verification of the content-mixing HTTP server (src/server.go)

A shallow embedding of `src/server.go` (package `main` of rickschubert/cromulent)
and proofs about it.  The repository's type declarations (`Provider`,
`ContentItem`, `ContentConfig`, `ContentMix`, `Client`) live in a file that is
not part of `src/`; they are modelled from the spec and from their uses in
`src/server.go` and `src/api_test.go`, as noted on each declaration.

Go runtime panics (nil-pointer dereference, nil-interface method call,
slice index out of range) are modelled as `Except.error ()`.
-/

/-- Modelled from the spec: `ProviderID: opaque identifier naming a content
source`.  The Go declaration (`type Provider string`) is outside `src/`; its
string nature is visible in `src/api_test.go` via the conversion
`Provider(item.Source)` and `string(Provider1)`. -/
abbrev Provider := String

/-- Modelled from the spec: `ContentItem: { sourceProviderID: ProviderID,
payload: opaque }`.  The Go struct declaration is outside `src/`; the `Source`
field (a string) is the only field `src/server.go` and `src/api_test.go`
read, the rest of the payload is opaque. -/
structure ContentItem where
  Source : String
  payload : String
deriving DecidableEq

/-- Modelled from the spec: `ProviderConfig: { providerID, fallbackProviderID:
optional ProviderID }`.  The Go struct declaration (`ContentConfig`) is outside
`src/`, but `src/server.go` line 96 dereferences `*confItem.Fallback` and
`src/api_test.go` line 155 constructs `Fallback: &Provider2`, so `Fallback` is
a `*Provider` pointer.  A pointer is modelled as `Option Nat`: `none` is Go
`nil`, `some a` is an address into an explicit heap `Nat → Provider`.  Go
compares struct values (and hence map keys) field by field with pointer fields
compared by address; the derived `DecidableEq` matches that exactly.  The Go
field `Type` is named `typ` because `Type` is reserved in Lean. -/
structure ContentConfig where
  typ : Provider
  Fallback : Option Nat
deriving DecidableEq

/-- Modelled from the spec: `Pattern: ordered sequence of ProviderConfig`
(Go: `type ContentMix []ContentConfig`, declared outside `src/`). -/
abbrev ContentMix := List ContentConfig

/-- Modelled from the spec: the provider capability `fetch(userKey: string,
count: int) -> (items, error?)` (Go interface `Client` with method
`GetContent`, declared outside `src/`; called in `src/server.go` lines 94 and
96 as `GetContent(req.RemoteAddr, amount)`).  `Except.error` is a failed call;
`Except.ok none` is a successful call returning a nil slice, `Except.ok
(some l)` a successful call returning a non-nil slice.  The amount is a `Nat`
because every amount the server passes is an occurrence count `≥ 1`. -/
def Client := String → Nat → Except Unit (Option (List ContentItem))

/-- `App` (src/server.go lines 15 to 18).  `ContentClients` is a Go map, so
looking up an unregistered provider yields the interface zero value `nil`,
modelled as `none` (calling a method on it panics). -/
structure App where
  ContentClients : Provider → Option Client
  Config : ContentMix

/-- One chunk written to the HTTP response body: plain text or the JSON
encoding of an item list (the only two shapes src/server.go writes). -/
inductive RespChunk where
  | text (s : String)
  | json (items : List ContentItem)
deriving DecidableEq

/-- Go `http.ResponseWriter` as observed by this program: `WriteHeader` sets
the status at most once (later calls are superfluous no-ops), and `Write`
implicitly sets status 200 first if no status was set yet. -/
structure ResponseWriter where
  status : Option Nat
  body : List RespChunk
  headers : List (String × String)
deriving DecidableEq

def ResponseWriter.initial : ResponseWriter := ⟨none, [], []⟩

def ResponseWriter.writeHeader (w : ResponseWriter) (code : Nat) : ResponseWriter :=
  if w.status.isSome then w else { w with status := some code }

def ResponseWriter.write (w : ResponseWriter) (chunk : RespChunk) : ResponseWriter :=
  let w2 := if w.status.isSome then w else { w with status := some 200 }
  { w2 with body := w2.body ++ [chunk] }

def ResponseWriter.addHeader (w : ResponseWriter) (k v : String) : ResponseWriter :=
  { w with headers := w.headers ++ [(k, v)] }

/-- The parts of `*http.Request` this program reads: `req.URL.Query().Get(p)`
(which returns `""` for a missing parameter) and `req.RemoteAddr`. -/
structure Request where
  query : String → String
  remoteAddr : String

/-- The outcome of running the handler: the response writer as left behind,
and whether a Go runtime panic occurred on the way. -/
structure HandlerResult where
  writer : ResponseWriter
  panicked : Bool
deriving DecidableEq

/-- Digit run for `goAtoi`; `none` as soon as a non-digit appears. -/
def parseDigitsAux : List Char → Nat → Option Nat
  | [], acc => some acc
  | c :: rest, acc =>
    if c.isDigit then parseDigitsAux rest (acc * 10 + (c.toNat - 48)) else none

/-- One or more decimal digits. -/
def parseDigits : List Char → Option Nat
  | [] => none
  | c :: rest => parseDigitsAux (c :: rest) 0

/-- Go `strconv.Atoi`: optional single sign followed by one or more digits;
anything else is an error (`none`).  Overflow is ignored (`Int` is unbounded;
all values in the claims are small). -/
def goAtoi (s : String) : Option Int :=
  match s.toList with
  | [] => none
  | c :: rest =>
    if c = '-' then (parseDigits rest).map (fun n => -(n : Int))
    else if c = '+' then (parseDigits rest).map (fun n => (n : Int))
    else (parseDigits (c :: rest)).map (fun n => (n : Int))

/-- `sendMissingParameterError` (src/server.go lines 29 to 32). -/
def sendMissingParameterError (missingParam : String) (w : ResponseWriter) : ResponseWriter :=
  (w.writeHeader 400).write
    (RespChunk.text ("Please provide the " ++ missingParam ++ " query parameter."))

/-- `sendIncorrectParameterError` (src/server.go lines 34 to 37). -/
def sendIncorrectParameterError (missingParam : String) (w : ResponseWriter) : ResponseWriter :=
  (w.writeHeader 400).write
    (RespChunk.text ("Please provide the " ++ missingParam ++ " query parameter as number."))

/-- `sendInternalServerError` (src/server.go lines 39 to 43). -/
def sendInternalServerError (errMsg : String) (w : ResponseWriter) : ResponseWriter :=
  (w.writeHeader 500).write (RespChunk.text ("Something went wrong. Sorry! " ++ errMsg))

/-- `getQueryParameter` (src/server.go lines 45 to 55).  Note that after
writing an error response it does NOT return early: `strconv.Atoi` of a
malformed string yields 0 together with the error, and the function returns
that 0 to its caller. -/
def getQueryParameter (param : String) (w : ResponseWriter) (req : Request) :
    Int × ResponseWriter :=
  let parameterGiven := req.query param
  let w2 := if parameterGiven = "" then sendMissingParameterError param w else w
  match goAtoi parameterGiven with
  | some n => (n, w2)
  | none => (0, sendIncorrectParameterError param w2)

/-- Go `configIdx++; if configIdx > configLastIdx { configIdx = 0 }`
(src/server.go lines 70 to 73), with `configLastIdx = len - 1`. -/
def nextConfigIdx (len : Nat) (configIdx : Nat) : Nat :=
  if len ≤ configIdx + 1 then 0 else configIdx + 1

/-- The loop of `stretchContentMixOverCount` (src/server.go lines 64 to 74):
`for i := 0; i < offset+count; i++`, appending `config[configIdx]` when
`i >= offset`.  The fuel argument is the number of remaining iterations,
`(offset + count - i).toNat`; `Except.error ()` is the index-out-of-range
panic of `config[configIdx]` on an empty `config`. -/
def stretchLoop (config : List ContentConfig) (offset : Int) :
    Nat → Int → Nat → Except Unit (List ContentConfig)
  | 0, _, _ => Except.ok []
  | Nat.succ fuel, i, configIdx =>
    if offset ≤ i then
      match config.get? configIdx with
      | none => Except.error ()
      | some c =>
        (stretchLoop config offset fuel (i + 1) (nextConfigIdx config.length configIdx)).map
          (fun rest => c :: rest)
    else
      stretchLoop config offset fuel (i + 1) (nextConfigIdx config.length configIdx)

/-- `stretchContentMixOverCount` (src/server.go lines 57 to 76).  When the
configuration is empty (`configLastIdx == -1`) it writes a 500 response but
does NOT return early; the loop then runs anyway and panics as soon as it
indexes into the empty slice. -/
def stretchContentMixOverCount (config : ContentMix) (count offset : Int)
    (w : ResponseWriter) : Except Unit (List ContentConfig) × ResponseWriter :=
  let w2 := if config.length = 0
    then sendInternalServerError "The app configuration is empty." w
    else w
  (stretchLoop config offset (offset + count).toNat 0 0, w2)

/-- Lookup in the association-list model of a Go map keyed by
`ContentConfig`; Go key equality is the derived structural equality
(pointer fields by address). -/
def lookupCount : List (ContentConfig × Nat) → ContentConfig → Option Nat
  | [], _ => none
  | (k, n) :: rest, c => if k = c then some n else lookupCount rest c

/-- One iteration of the loop of `getContentCountsPerConfig`
(src/server.go lines 81 to 87): increment the existing entry if the key is
present, otherwise insert it with count 1. -/
def bumpCount : List (ContentConfig × Nat) → ContentConfig → List (ContentConfig × Nat)
  | [], c => [(c, 1)]
  | (k, n) :: rest, c =>
    if k = c then (k, n + 1) :: rest else (k, n) :: bumpCount rest c

/-- `getContentCountsPerConfig` (src/server.go lines 78 to 89).  The Go map
`CountsPerConfig` is modelled as an association list with distinct keys
(lookup via `lookupCount`); iteration order of a Go map is arbitrary, but the
map's contents are order-independent. -/
def getContentCountsPerConfig (order : ContentMix) : List (ContentConfig × Nat) :=
  order.foldl bumpCount []

/-- `fetchItemsForConfig` (src/server.go lines 91 to 105), minus the
waitgroup/channel plumbing (the value sent on the channel is returned).
`Except.error ()` is a Go panic: `app.ContentClients[...]` of an unregistered
provider is a nil interface whose `GetContent` call panics, and
`*confItem.Fallback` panics when `Fallback` is nil. -/
def fetchItemsForConfig (app : App) (heap : Nat → Provider) (confItem : ContentConfig)
    (remoteAddr : String) (amount : Nat) : Except Unit (Option (List ContentItem)) :=
  match app.ContentClients confItem.typ with
  | none => Except.error ()
  | some client =>
    match client remoteAddr amount with
    | Except.ok contents => Except.ok contents
    | Except.error _ =>
      match confItem.Fallback with
      | none => Except.error ()
      | some a =>
        match app.ContentClients (heap a) with
        | none => Except.error ()
        | some fallbackClient =>
          match fallbackClient remoteAddr amount with
          | Except.ok contents => Except.ok contents
          | Except.error _ => Except.ok none

/-- The dispatcher: the goroutine fan-out over `CountsPerConfig`
(src/server.go lines 149 to 157) joined with `getMapOfFetchedContents`
(lines 131 to 138).  Each distinct config's fetch writes its own slot of the
`FetchedContentsMap`; keys are distinct, so the resulting map does not depend
on goroutine scheduling and is modelled by a fold in list order.  A panic in
any goroutine crashes the request (`Except.error`).  A map lookup for an
absent key yields Go `nil`, i.e. `none`, which is also the initial value of
every slot. -/
def dispatchAll (app : App) (heap : Nat → Provider) (remoteAddr : String) :
    List (ContentConfig × Nat) → Except Unit (ContentConfig → Option (List ContentItem))
  | [] => Except.ok (fun _ => none)
  | (config, amount) :: rest =>
    match fetchItemsForConfig app heap config remoteAddr amount with
    | Except.error e => Except.error e
    | Except.ok items =>
      match dispatchAll app heap remoteAddr rest with
      | Except.error e => Except.error e
      | Except.ok m => Except.ok (fun c => if c = config then items else m c)

/-- `generateListOfItemsToReturn` (src/server.go lines 116 to 128).  For each
config of `order` in turn: if its slot is nil, break and return what was
accumulated; otherwise take `contents[config][0]` — which PANICS
(`Except.error ()`) when the slot is a non-nil empty slice — and shrink the
slot by one (the Go `append(s[:0], s[1:]...)` idiom keeps the slice non-nil
even when it becomes empty). -/
def generateListOfItemsToReturn :
    List ContentConfig → (ContentConfig → Option (List ContentItem)) →
    Except Unit (List ContentItem)
  | [], _ => Except.ok []
  | config :: rest, contents =>
    match contents config with
    | none => Except.ok []
    | some [] => Except.error ()
    | some (item :: remaining) =>
      (generateListOfItemsToReturn rest
          (fun c => if c = config then some remaining else contents c)).map
        (fun tail => item :: tail)

/-- `writeJsonResponse` (src/server.go lines 107 to 114).  `json.Marshal`
cannot fail on a slice of plain structs, so the marshal-error branch is
unreachable and omitted. -/
def writeJsonResponse (w : ResponseWriter) (returnList : List ContentItem) : ResponseWriter :=
  (w.addHeader "content-type" "application/json").write (RespChunk.json returnList)

/-- The part of `ServeHTTP` after query-parameter extraction
(src/server.go lines 146 to 160): stretch, aggregate, dispatch, interleave,
respond.  A Go panic anywhere leaves the response writer as already written
and marks the request as crashed. -/
def runCore (app : App) (heap : Nat → Provider) (req : Request)
    (count offset : Int) (w : ResponseWriter) : HandlerResult :=
  match stretchContentMixOverCount app.Config count offset w with
  | (Except.error _, w2) => ⟨w2, true⟩
  | (Except.ok order, w2) =>
    let counts := getContentCountsPerConfig order
    match dispatchAll app heap req.remoteAddr counts with
    | Except.error _ => ⟨w2, true⟩
    | Except.ok fetchedContents =>
      match generateListOfItemsToReturn order fetchedContents with
      | Except.error _ => ⟨w2, true⟩
      | Except.ok returnList => ⟨writeJsonResponse w2 returnList, false⟩

/-- `ServeHTTP` (src/server.go lines 140 to 161).  The `heap` argument models
Go memory holding the `Provider` values that `Fallback` pointers point at. -/
def ServeHTTP (app : App) (heap : Nat → Provider) (req : Request) : HandlerResult :=
  let cw := getQueryParameter "count" ResponseWriter.initial req
  let ow := getQueryParameter "offset" cw.2 req
  runCore app heap req cw.1 ow.1 ow.2

/-- Number of occurrences of a config in a list (Go equality on
`ContentConfig` map keys). -/
def countOcc (c : ContentConfig) : List ContentConfig → Nat
  | [] => 0
  | k :: rest => (if k = c then 1 else 0) + countOcc c rest

/-- Length of the longest prefix of `order` on which every config has a
non-nil slot in `m`: exactly where the interleaver's walk can reach. -/
def availablePrefixLen (m : ContentConfig → Option (List ContentItem)) :
    List ContentConfig → Nat
  | [] => 0
  | c :: rest =>
    match m c with
    | none => 0
    | some _ => 1 + availablePrefixLen m rest

/-- A junk default configuration, used only as the default of `List.getD`
at indices that are always in range. -/
def defaultConfig : ContentConfig := ⟨"", none⟩

/-! ## Properties of the sequence expander -/

theorem nextConfigIdx_eq_mod {len idx : Nat} (h : idx < len) :
    nextConfigIdx len idx = (idx + 1) % len := by
  unfold nextConfigIdx
  split
  · have he : idx + 1 = len := by omega
    rw [he, Nat.mod_self]
  · rw [Nat.mod_eq_of_lt (by omega)]

theorem getElem?_of_lt_length (l : List ContentConfig) (n : Nat) (h : n < l.length) :
    l[n]? = some (l.getD n defaultConfig) := by
  rw [List.getD_eq_getElem?_getD]
  cases hg : l[n]? with
  | none => exact absurd (List.getElem?_eq_none_iff.mp hg) (by omega)
  | some c => rfl

/-- Once the loop counter has reached `offset`, every remaining iteration
appends one element, walking the pattern cyclically from `idx`. -/
theorem stretchLoop_all_append (config : List ContentConfig) (offset : Int)
    (hne : config ≠ []) :
    ∀ (fuel : Nat) (i : Int) (idx : Nat), offset ≤ i → idx < config.length →
    stretchLoop config offset fuel i idx =
      Except.ok ((List.range fuel).map
        (fun j => config.getD ((idx + j) % config.length) defaultConfig)) := by
  intro fuel
  induction fuel with
  | zero => intro i idx _ _; simp [stretchLoop]
  | succ fuel ih =>
    intro i idx hoff hidx
    have hlen : 0 < config.length := List.length_pos.mpr hne
    simp only [stretchLoop]
    rw [if_pos hoff]
    rw [List.get?_eq_getElem?, getElem?_of_lt_length config idx hidx]
    rw [nextConfigIdx_eq_mod hidx]
    rw [ih (i + 1) ((idx + 1) % config.length) (by omega) (Nat.mod_lt _ hlen)]
    simp only [Except.map]
    congr 1
    rw [List.range_succ_eq_map, List.map_cons, List.map_map]
    congr 1
    · congr 1
      simp [Nat.mod_eq_of_lt hidx]
    · have hfg : (fun j => config.getD (((idx + 1) % config.length + j) % config.length)
            defaultConfig)
          = ((fun j => config.getD ((idx + j) % config.length) defaultConfig) ∘ Nat.succ) := by
        funext j
        simp only [Function.comp_apply]
        congr 1
        rw [Nat.mod_add_mod]
        congr 1
        omega
      rw [hfg]

/-- Before the loop counter reaches `offset`, iterations only advance the
cyclic index. -/
theorem stretchLoop_skip (config : List ContentConfig) (offset : Int) :
    ∀ (s rest : Nat) (i : Int) (idx : Nat), idx < config.length →
      i + (s : Int) = offset →
      stretchLoop config offset (s + rest) i idx =
        stretchLoop config offset rest offset ((idx + s) % config.length) := by
  intro s
  induction s with
  | zero =>
    intro rest i idx hidx heq
    have hi : i = offset := by omega
    rw [Nat.zero_add, hi, Nat.add_zero, Nat.mod_eq_of_lt hidx]
  | succ s ih =>
    intro rest i idx hidx heq
    have hlen : 0 < config.length := by omega
    rw [Nat.succ_add]
    simp only [stretchLoop]
    rw [if_neg (by omega : ¬ offset ≤ i)]
    rw [nextConfigIdx_eq_mod hidx]
    rw [ih rest (i + 1) ((idx + 1) % config.length) (Nat.mod_lt _ hlen) (by omega)]
    congr 1
    rw [Nat.mod_add_mod]
    congr 1
    omega

/-- The expander on a non-empty pattern and a non-negative window: it returns
(without writing to the response) the window `[offset, offset+count)` of the
cyclically repeated pattern. -/
theorem stretch_formula (config : ContentMix) (hne : config ≠ []) (count offset : Nat)
    (w : ResponseWriter) :
    stretchContentMixOverCount config (count : Int) (offset : Int) w =
      (Except.ok ((List.range count).map
        (fun j => config.getD ((offset + j) % config.length) defaultConfig)), w) := by
  have hlen : 0 < config.length := List.length_pos.mpr hne
  simp only [stretchContentMixOverCount]
  rw [if_neg (by omega : ¬ config.length = 0)]
  have htn : ((offset : Int) + (count : Int)).toNat = offset + count := by omega
  rw [htn]
  rw [stretchLoop_skip config offset offset count 0 0 hlen (by omega)]
  rw [stretchLoop_all_append config offset hne count offset ((0 + offset) % config.length)
    (le_refl _) (Nat.mod_lt _ hlen)]
  have hfg : (fun j => config.getD (((0 + offset) % config.length + j) % config.length)
        defaultConfig)
      = (fun j => config.getD ((offset + j) % config.length) defaultConfig) := by
    funext j
    congr 1
    rw [Nat.mod_add_mod]
    congr 1
    omega
  rw [hfg]

theorem goAtoi_empty : goAtoi "" = none := rfl

/-- C2: for every non-empty pattern P of length L, every count >= 0 and every
offset >= 0, `stretchContentMixOverCount` returns a sequence of length exactly
count whose i-th element equals `P[(offset+i) mod L]`. -/
theorem c2_cyclic_expansion (config : ContentMix) (w : ResponseWriter)
    (hne : config ≠ []) (count offset : Nat) :
    ∃ l, (stretchContentMixOverCount config (count : Int) (offset : Int) w).1 =
        Except.ok l ∧
      l.length = count ∧
      ∀ i < count, l[i]? = config[(offset + i) % config.length]? := by
  refine ⟨(List.range count).map
      (fun j => config.getD ((offset + j) % config.length) defaultConfig), ?_, by simp, ?_⟩
  · rw [stretch_formula config hne count offset w]
  · intro i hi
    have hlen : 0 < config.length := List.length_pos.mpr hne
    rw [List.getElem?_map, List.getElem?_range hi,
      getElem?_of_lt_length config _ (Nat.mod_lt _ hlen)]
    simp

theorem range_map_split {α : Type} (f : Nat → α) (a b : Nat) :
    (List.range (a + b)).map f =
      (List.range a).map f ++ (List.range b).map (fun j => f (a + j)) := by
  induction b with
  | zero => simp
  | succ b ih =>
    rw [show a + (b + 1) = (a + b) + 1 from by omega]
    rw [List.range_succ, List.map_append, ih, List.range_succ, List.map_append]
    simp [List.append_assoc]

/-- C9: windowing is composable: the expansion for `(count, offset)` followed
by the expansion for `(count2, offset+count)` is the expansion for
`(count+count2, offset)`. -/
theorem c9_offset_continuity (config : ContentMix) (hne : config ≠ [])
    (count count2 offset : Nat) (w w2 w3 : ResponseWriter) :
    ∃ l1 l2 l3,
      (stretchContentMixOverCount config (count : Int) (offset : Int) w).1 =
        Except.ok l1 ∧
      (stretchContentMixOverCount config (count2 : Int) ((offset + count : Nat) : Int) w2).1 =
        Except.ok l2 ∧
      (stretchContentMixOverCount config ((count + count2 : Nat) : Int) (offset : Int) w3).1 =
        Except.ok l3 ∧
      l1 ++ l2 = l3 := by
  refine ⟨(List.range count).map
        (fun j => config.getD ((offset + j) % config.length) defaultConfig),
      (List.range count2).map
        (fun j => config.getD ((offset + count + j) % config.length) defaultConfig),
      (List.range (count + count2)).map
        (fun j => config.getD ((offset + j) % config.length) defaultConfig),
      ?_, ?_, ?_, ?_⟩
  · rw [stretch_formula config hne count offset w]
  · rw [stretch_formula config hne count2 (offset + count) w2]
  · rw [stretch_formula config hne (count + count2) offset w3]
  · rw [range_map_split]
    have hfg : (fun j => config.getD ((offset + count + j) % config.length) defaultConfig)
        = (fun j => config.getD ((offset + (count + j)) % config.length) defaultConfig) := by
      funext j
      rw [Nat.add_assoc]
    rw [hfg]

/-- C10: on a negative offset with positive count (which `goAtoi` accepts and
`getQueryParameter` passes through without an error response), the expander
does not fail: it returns `max 0 (offset+count)` elements, cycling from
pattern index 0. -/
theorem c10_negative_offset (config : ContentMix) (hne : config ≠ [])
    (count offset : Int) (hcount : 0 < count) (hoffset : offset < 0)
    (w : ResponseWriter) :
    (∃ l, (stretchContentMixOverCount config count offset w).1 = Except.ok l ∧
       l.length = (offset + count).toNat ∧
       ∀ j < (offset + count).toNat, l[j]? = config[j % config.length]?) ∧
    (∀ (w0 : ResponseWriter) (req : Request) (p : String),
       goAtoi (req.query p) = some offset → getQueryParameter p w0 req = (offset, w0)) := by
  have hlen : 0 < config.length := List.length_pos.mpr hne
  constructor
  · refine ⟨(List.range (offset + count).toNat).map
        (fun j => config.getD (j % config.length) defaultConfig), ?_, by simp, ?_⟩
    · simp only [stretchContentMixOverCount]
      rw [stretchLoop_all_append config offset hne ((offset + count).toNat) 0 0 (by omega) hlen]
      have hfg : (fun j => config.getD ((0 + j) % config.length) defaultConfig)
          = (fun j => config.getD (j % config.length) defaultConfig) := by
        funext j
        simp
      rw [hfg]
    · intro j hj
      rw [List.getElem?_map, List.getElem?_range hj,
        getElem?_of_lt_length config _ (Nat.mod_lt _ hlen)]
      simp
  · intro w0 req p hp
    have hq : ¬ req.query p = "" := by
      intro h
      rw [h, goAtoi_empty] at hp
      exact Option.noConfusion hp
    simp only [getQueryParameter, hp, if_neg hq]

def wmix1 : ContentConfig := ⟨"p1", some 0⟩
def wmix2 : ContentConfig := ⟨"p2", none⟩
def wmix3 : ContentConfig := ⟨"p3", some 0⟩

/-- A concrete three-element pattern used to instantiate universally
quantified theorems at a concrete input. -/
def wmixPattern : ContentMix := [wmix1, wmix2, wmix3]

theorem c2_witness :
    wmixPattern ≠ [] ∧
    ∃ l, (stretchContentMixOverCount wmixPattern ((8 : Nat) : Int) ((2 : Nat) : Int)
          ResponseWriter.initial).1 = Except.ok l ∧
      l.length = 8 ∧
      ∀ i < 8, l[i]? = wmixPattern[(2 + i) % wmixPattern.length]? :=
  ⟨by decide, c2_cyclic_expansion wmixPattern ResponseWriter.initial (by decide) 8 2⟩

theorem c9_witness :
    wmixPattern ≠ [] ∧
    ∃ l1 l2 l3,
      (stretchContentMixOverCount wmixPattern ((4 : Nat) : Int) ((1 : Nat) : Int)
          ResponseWriter.initial).1 = Except.ok l1 ∧
      (stretchContentMixOverCount wmixPattern ((5 : Nat) : Int) ((1 + 4 : Nat) : Int)
          ResponseWriter.initial).1 = Except.ok l2 ∧
      (stretchContentMixOverCount wmixPattern ((4 + 5 : Nat) : Int) ((1 : Nat) : Int)
          ResponseWriter.initial).1 = Except.ok l3 ∧
      l1 ++ l2 = l3 :=
  ⟨by decide, c9_offset_continuity wmixPattern (by decide) 4 5 1
    ResponseWriter.initial ResponseWriter.initial ResponseWriter.initial⟩

theorem c10_witness :
    (wmixPattern ≠ [] ∧ (0 : Int) < 3 ∧ (-2 : Int) < 0) ∧
    (∃ l, (stretchContentMixOverCount wmixPattern 3 (-2) ResponseWriter.initial).1 =
        Except.ok l ∧
       l.length = ((-2 : Int) + 3).toNat ∧
       ∀ j < ((-2 : Int) + 3).toNat, l[j]? = wmixPattern[j % wmixPattern.length]?) ∧
    (∀ (w0 : ResponseWriter) (req : Request) (p : String),
       goAtoi (req.query p) = some (-2 : Int) → getQueryParameter p w0 req = (-2, w0)) :=
  ⟨⟨by decide, by decide, by decide⟩,
    c10_negative_offset wmixPattern (by decide) 3 (-2) (by decide) (by decide)
      ResponseWriter.initial⟩

/-! ## Properties of the demand aggregator -/

theorem countOcc_pos (c : ContentConfig) :
    ∀ l : List ContentConfig, c ∈ l → 1 ≤ countOcc c l := by
  intro l
  induction l with
  | nil => intro h; cases h
  | cons k rest ih =>
    intro hmem
    simp only [countOcc]
    by_cases hk : k = c
    · rw [if_pos hk]; omega
    · rw [if_neg hk]
      rcases List.mem_cons.mp hmem with h | h
      · exact absurd h.symm hk
      · have := ih h; omega

theorem lookupCount_bumpCount (a c : ContentConfig) :
    ∀ counts : List (ContentConfig × Nat),
    lookupCount (bumpCount counts a) c =
      if a = c then some ((lookupCount counts c).getD 0 + 1) else lookupCount counts c := by
  intro counts
  induction counts with
  | nil => by_cases h : a = c <;> simp [bumpCount, lookupCount, h]
  | cons p rest ih =>
    obtain ⟨k, n⟩ := p
    by_cases hk : k = a
    · subst hk
      by_cases hc : k = c <;> simp [bumpCount, lookupCount, hc]
    · by_cases hc : k = c
      · have hac : ¬ a = c := fun h => hk (hc.trans h.symm)
        have hca : ¬ c = a := fun h => hac h.symm
        simp [bumpCount, lookupCount, hk, hc, hac, hca]
      · simp [bumpCount, lookupCount, hk, hc, ih]

theorem lookupCount_foldl_bump (c : ContentConfig) :
    ∀ (l : List ContentConfig) (acc : List (ContentConfig × Nat)),
    lookupCount (List.foldl bumpCount acc l) c =
      match lookupCount acc c with
      | some n => some (n + countOcc c l)
      | none => if c ∈ l then some (countOcc c l) else none := by
  intro l
  induction l with
  | nil =>
    intro acc
    cases h : lookupCount acc c <;> simp [countOcc, h]
  | cons a t ih =>
    intro acc
    rw [List.foldl_cons, ih (bumpCount acc a), lookupCount_bumpCount]
    by_cases hac : a = c
    · subst hac
      rw [if_pos rfl]
      cases h : lookupCount acc a <;>
        simp [countOcc, h, List.mem_cons] <;> omega
    · rw [if_neg hac]
      have hca : ¬ c = a := fun h => hac h.symm
      cases h : lookupCount acc c <;>
        simp [countOcc, h, List.mem_cons, hca, hac]

/-- The demand map of `getContentCountsPerConfig`, characterized: a config is
a key iff it occurs in the expanded sequence, and its count is its number of
occurrences, under Go key equality on `ContentConfig`. -/
theorem lookupCount_counts (order : ContentMix) (c : ContentConfig) :
    lookupCount (getContentCountsPerConfig order) c =
      if c ∈ order then some (countOcc c order) else none := by
  have h := lookupCount_foldl_bump c order []
  simpa [getContentCountsPerConfig, lookupCount] using h

theorem mem_bumpCount (a : ContentConfig) :
    ∀ (counts : List (ContentConfig × Nat)) (p : ContentConfig × Nat),
      p ∈ bumpCount counts a →
      (∃ q ∈ counts, p.1 = q.1 ∧ q.2 ≤ p.2) ∨ p = (a, 1) := by
  intro counts
  induction counts with
  | nil =>
    intro p hp
    simp only [bumpCount, List.mem_singleton] at hp
    right
    exact hp
  | cons q rest ih =>
    obtain ⟨k, n⟩ := q
    intro p hp
    by_cases hk : k = a
    · rw [bumpCount, if_pos hk] at hp
      rcases List.mem_cons.mp hp with h | h
      · left
        exact ⟨(k, n), List.mem_cons_self _ _, by simp [h], by simp [h]⟩
      · left
        exact ⟨p, List.mem_cons_of_mem _ h, rfl, le_refl _⟩
    · rw [bumpCount, if_neg hk] at hp
      rcases List.mem_cons.mp hp with h | h
      · left
        exact ⟨(k, n), List.mem_cons_self _ _, by simp [h], by simp [h]⟩
      · rcases ih p h with ⟨q, hq, h1, h2⟩ | h
        · left
          exact ⟨q, List.mem_cons_of_mem _ hq, h1, h2⟩
        · right
          exact h

theorem entries_foldl_bump (Q : ContentConfig → Prop) :
    ∀ (l : List ContentConfig) (acc : List (ContentConfig × Nat)),
      (∀ p ∈ acc, Q p.1 ∧ 1 ≤ p.2) → (∀ x ∈ l, Q x) →
      ∀ p ∈ List.foldl bumpCount acc l, Q p.1 ∧ 1 ≤ p.2 := by
  intro l
  induction l with
  | nil =>
    intro acc hacc _ p hp
    exact hacc p hp
  | cons a t ih =>
    intro acc hacc hl
    rw [List.foldl_cons]
    refine ih (bumpCount acc a) ?_ (fun x hx => hl x (List.mem_cons_of_mem a hx))
    intro p hp
    rcases mem_bumpCount a acc p hp with ⟨q, hq, h1, h2⟩ | h
    · have := hacc q hq
      exact ⟨h1 ▸ this.1, by omega⟩
    · rw [h]
      exact ⟨hl a (List.mem_cons_self _ _), le_refl _⟩

/-- Every entry of the demand map has a key occurring in the expanded sequence
and a demanded amount of at least 1. -/
theorem counts_entries (order : ContentMix) :
    ∀ p ∈ getContentCountsPerConfig order, p.1 ∈ order ∧ 1 ≤ p.2 :=
  entries_foldl_bump (· ∈ order) order [] (by simp) (fun _ hx => hx)

/-! ## Properties of the dispatcher and the interleaver -/

/-- A well-formed query parameter is returned unchanged, with no error
response written. -/
theorem getQueryParameter_ok (p : String) (w : ResponseWriter) (req : Request)
    (n : Int) (h : goAtoi (req.query p) = some n) :
    getQueryParameter p w req = (n, w) := by
  have hq : ¬ req.query p = "" := by
    intro he
    rw [he, goAtoi_empty] at h
    exact Option.noConfusion h
  simp only [getQueryParameter, h, if_neg hq]

/-- When every fetch succeeds (no panic), the dispatcher returns the map that
sends each demand-map key to its fetch result and every other config to Go
`nil`. -/
theorem dispatchAll_ok (app : App) (heap : Nat → Provider) (addr : String) :
    ∀ counts : List (ContentConfig × Nat),
      (∀ p ∈ counts, ∃ items, fetchItemsForConfig app heap p.1 addr p.2 = Except.ok items) →
      ∃ m, dispatchAll app heap addr counts = Except.ok m ∧
        (∀ c, lookupCount counts c = none → m c = none) ∧
        (∀ c n, lookupCount counts c = some n →
          ∃ items, fetchItemsForConfig app heap c addr n = Except.ok items ∧ m c = items) := by
  intro counts
  induction counts with
  | nil =>
    intro _
    exact ⟨fun _ => none, rfl, fun _ _ => rfl, fun c n h => nomatch h⟩
  | cons p rest ih =>
    obtain ⟨k, a⟩ := p
    intro h
    obtain ⟨items, hitems⟩ := h (k, a) (List.mem_cons_self _ _)
    obtain ⟨m, hm, hnone, hsome⟩ := ih (fun q hq => h q (List.mem_cons_of_mem _ hq))
    refine ⟨fun c => if c = k then items else m c, ?_, ?_, ?_⟩
    · simp only [dispatchAll, hitems, hm]
    · intro c hc
      simp only [lookupCount] at hc
      by_cases hkc : k = c
      · rw [if_pos hkc] at hc
        exact Option.noConfusion hc
      · rw [if_neg hkc] at hc
        simp only [if_neg (fun h' : c = k => hkc h'.symm)]
        exact hnone c hc
    · intro c n hc
      simp only [lookupCount] at hc
      by_cases hkc : k = c
      · rw [if_pos hkc] at hc
        obtain rfl : a = n := by injection hc
        subst hkc
        exact ⟨items, hitems, by simp⟩
      · rw [if_neg hkc] at hc
        obtain ⟨its, hf, hmc⟩ := hsome c n hc
        exact ⟨its, hf, by simp only [if_neg (fun h' : c = k => hkc h'.symm)]; exact hmc⟩

theorem availablePrefixLen_congr (m m' : ContentConfig → Option (List ContentItem))
    (h : ∀ c, (m c).isSome = (m' c).isSome) :
    ∀ order, availablePrefixLen m order = availablePrefixLen m' order := by
  intro order
  induction order with
  | nil => rfl
  | cons c rest ih =>
    simp only [availablePrefixLen]
    have hc := h c
    cases h1 : m c with
    | none =>
      rw [h1] at hc
      cases h2 : m' c with
      | none => rfl
      | some l => rw [h2] at hc; simp at hc
    | some l =>
      rw [h1] at hc
      cases h2 : m' c with
      | none => rw [h2] at hc; simp at hc
      | some l' => rw [ih]

theorem availablePrefixLen_all_some (m : ContentConfig → Option (List ContentItem)) :
    ∀ order, (∀ c ∈ order, (m c).isSome) → availablePrefixLen m order = order.length := by
  intro order
  induction order with
  | nil => intro _; rfl
  | cons c rest ih =>
    intro h
    have hc := h c (List.mem_cons_self _ _)
    simp only [availablePrefixLen]
    cases h1 : m c with
    | none => rw [h1] at hc; simp at hc
    | some l =>
      rw [ih (fun x hx => h x (List.mem_cons_of_mem _ hx))]
      simp [List.length_cons]
      omega

theorem availablePrefixLen_le (m : ContentConfig → Option (List ContentItem)) :
    ∀ order, availablePrefixLen m order ≤ order.length := by
  intro order
  induction order with
  | nil => exact le_refl _
  | cons c rest ih =>
    simp only [availablePrefixLen]
    cases m c with
    | none => simp
    | some l => simp only [List.length_cons]; omega

/-- The interleaver, when every result set is either Go `nil` or long enough
for its config's occurrence count: it returns (without panicking) one item
per position of the longest prefix of `order` whose configs all have non-nil
result sets, each item drawn from its own config's result set. -/
theorem generateList_ok (P : ContentConfig → ContentItem → Prop) :
    ∀ (order : List ContentConfig) (m : ContentConfig → Option (List ContentItem)),
      (∀ c ∈ order, m c = none ∨
        ∃ l, m c = some l ∧ countOcc c order ≤ l.length ∧ ∀ x ∈ l, P c x) →
      ∃ out : List ContentItem, generateListOfItemsToReturn order m = Except.ok out ∧
        out.length = availablePrefixLen m order ∧
        ∀ (i : Nat) (c : ContentConfig) (x : ContentItem),
          order[i]? = some c → out[i]? = some x → P c x := by
  intro order
  induction order with
  | nil =>
    intro m _
    refine ⟨[], rfl, rfl, ?_⟩
    intro i c x h1 h2
    simp at h2
  | cons c rest ih =>
    intro m h
    rcases h c (List.mem_cons_self _ _) with hc | ⟨l, hc, hlen, hP⟩
    · refine ⟨[], ?_, ?_, ?_⟩
      · simp only [generateListOfItemsToReturn, hc]
      · simp only [availablePrefixLen, hc, List.length_nil]
      · intro i c' x h1 h2
        simp at h2
    · have hocc : 1 ≤ countOcc c (c :: rest) :=
        countOcc_pos c _ (List.mem_cons_self _ _)
      obtain ⟨x, l', rfl⟩ : ∃ x l', l = x :: l' := by
        cases l with
        | nil => exfalso; simp at hlen; omega
        | cons x l' => exact ⟨x, l', rfl⟩
      have hrest : ∀ c' ∈ rest,
          (fun c'' => if c'' = c then some l' else m c'') c' = none ∨
          ∃ l2, (fun c'' => if c'' = c then some l' else m c'') c' = some l2 ∧
            countOcc c' rest ≤ l2.length ∧ ∀ y ∈ l2, P c' y := by
        intro c' hc'
        by_cases hcc : c' = c
        · subst hcc
          right
          refine ⟨l', by simp, ?_, fun y hy => hP y (List.mem_cons_of_mem _ hy)⟩
          have he : countOcc c' (c' :: rest) = 1 + countOcc c' rest := by
            simp [countOcc]
          simp only [List.length_cons] at hlen
          omega
        · rcases h c' (List.mem_cons_of_mem _ hc') with h1 | ⟨l2, h1, h2, h3⟩
          · left
            simp [hcc, h1]
          · right
            refine ⟨l2, by simp [hcc, h1], ?_, h3⟩
            have hcc2 : ¬ c = c' := fun hh => hcc hh.symm
            have he : countOcc c' (c :: rest) = countOcc c' rest := by
              simp [countOcc, hcc2]
            omega
      obtain ⟨out', hout', hlen', hP'⟩ := ih _ hrest
      refine ⟨x :: out', ?_, ?_, ?_⟩
      · simp only [generateListOfItemsToReturn, hc, hout', Except.map]
      · simp only [availablePrefixLen, hc, List.length_cons]
        rw [hlen']
        have hcongr := availablePrefixLen_congr
          (fun c'' => if c'' = c then some l' else m c'') m
          (by
            intro c''
            by_cases hcc : c'' = c
            · subst hcc
              simp [hc]
            · simp [hcc])
          rest
        rw [hcongr]
        omega
      · intro i c' y h1 h2
        cases i with
        | zero =>
          simp only [List.getElem?_cons_zero, Option.some.injEq] at h1 h2
          subst h1
          subst h2
          exact hP x (List.mem_cons_self _ _)
        | succ i =>
          simp only [List.getElem?_cons_succ] at h1 h2
          exact hP' i c' y h1 h2

/-- The full request pipeline under per-config fetch success: well-formed
parameters, a non-empty pattern, and every pattern config's fetch succeeding
with at least the demanded number of items, all labeled by `src`.  The
response is a 200 whose JSON body has exactly `count` items, position `i`
attributed to `src` of the config at position `i` of the expanded sequence. -/
theorem pipeline_sources (app : App) (heap : Nat → Provider) (req : Request)
    (count offset : Nat)
    (hcount : goAtoi (req.query "count") = some (count : Int))
    (hoffset : goAtoi (req.query "offset") = some (offset : Int))
    (hpat : app.Config ≠ [])
    (src : ContentConfig → Provider)
    (hfetch : ∀ c ∈ app.Config, ∀ n : Nat, 1 ≤ n → ∃ l,
      fetchItemsForConfig app heap c req.remoteAddr n = Except.ok (some l) ∧
        n ≤ l.length ∧ ∀ x ∈ l, x.Source = src c) :
    ∃ out : List ContentItem,
      ServeHTTP app heap req =
        ⟨⟨some 200, [RespChunk.json out], [("content-type", "application/json")]⟩, false⟩ ∧
      out.length = count ∧
      ∀ i < count, ∃ c x, app.Config[(offset + i) % app.Config.length]? = some c ∧
        out[i]? = some x ∧ x.Source = src c := by
  have hlen : 0 < app.Config.length := List.length_pos.mpr hpat
  set order : List ContentConfig := (List.range count).map
    (fun j => app.Config.getD ((offset + j) % app.Config.length) defaultConfig) with horder
  have horder_mem : ∀ c ∈ order, c ∈ app.Config := by
    intro c hcm
    rw [horder] at hcm
    obtain ⟨j, hj, rfl⟩ := List.mem_map.mp hcm
    have hidx : (offset + j) % app.Config.length < app.Config.length := Nat.mod_lt _ hlen
    exact List.getElem?_mem (getElem?_of_lt_length app.Config _ hidx)
  have hfetch' : ∀ c ∈ order, ∀ n : Nat, 1 ≤ n → ∃ l,
      fetchItemsForConfig app heap c req.remoteAddr n = Except.ok (some l) ∧
        n ≤ l.length ∧ ∀ x ∈ l, x.Source = src c :=
    fun c hc => hfetch c (horder_mem c hc)
  have hdisp_hyp : ∀ p ∈ getContentCountsPerConfig order,
      ∃ items, fetchItemsForConfig app heap p.1 req.remoteAddr p.2 = Except.ok items := by
    intro p hp
    obtain ⟨hmem, hge⟩ := counts_entries order p hp
    obtain ⟨l, hf, _, _⟩ := hfetch' p.1 hmem p.2 hge
    exact ⟨some l, hf⟩
  obtain ⟨mfetch, hdisp, hnone, hsome⟩ :=
    dispatchAll_ok app heap req.remoteAddr (getContentCountsPerConfig order) hdisp_hyp
  have hslots : ∀ c ∈ order, ∃ l, mfetch c = some l ∧
      countOcc c order ≤ l.length ∧ ∀ x ∈ l, x.Source = src c := by
    intro c hcm
    have hl := lookupCount_counts order c
    rw [if_pos hcm] at hl
    obtain ⟨items, hf1, hmc⟩ := hsome c (countOcc c order) hl
    obtain ⟨l, hf2, hge, hlab⟩ := hfetch' c hcm (countOcc c order) (countOcc_pos c order hcm)
    rw [hf1] at hf2
    obtain rfl : items = some l := by injection hf2
    exact ⟨l, hmc, hge, hlab⟩
  obtain ⟨out, hgen, hlenout, hsrc⟩ := generateList_ok (fun c x => x.Source = src c)
    order mfetch (fun c hc => Or.inr (hslots c hc))
  have hall : availablePrefixLen mfetch order = order.length := by
    refine availablePrefixLen_all_some mfetch order ?_
    intro c hc
    obtain ⟨l, hl, _, _⟩ := hslots c hc
    rw [hl]
    rfl
  have horder_len : order.length = count := by
    rw [horder]
    simp
  have houtlen : out.length = count := by
    rw [hlenout, hall, horder_len]
  refine ⟨out, ?_, houtlen, ?_⟩
  · have h1 : getQueryParameter "count" ResponseWriter.initial req =
        ((count : Int), ResponseWriter.initial) :=
      getQueryParameter_ok _ _ _ _ hcount
    have h2 : getQueryParameter "offset" ResponseWriter.initial req =
        ((offset : Int), ResponseWriter.initial) :=
      getQueryParameter_ok _ _ _ _ hoffset
    have hstretch := stretch_formula app.Config hpat count offset ResponseWriter.initial
    rw [← horder] at hstretch
    simp only [ServeHTTP, h1, h2, runCore, hstretch, hdisp, hgen]
    rfl
  · intro i hi
    have hidx : (offset + i) % app.Config.length < app.Config.length := Nat.mod_lt _ hlen
    have hcfg := getElem?_of_lt_length app.Config _ hidx
    have horderi : order[i]? =
        some (app.Config.getD ((offset + i) % app.Config.length) defaultConfig) := by
      rw [horder, List.getElem?_map, List.getElem?_range hi]
      rfl
    have hiout : i < out.length := by
      rw [houtlen]
      exact hi
    have hx : out[i]? = some (out[i]) := (List.getElem?_eq_some_getElem_iff out i hiout).mpr trivial
    exact ⟨_, out[i], hcfg, hx, hsrc i _ (out[i]) horderi hx⟩

/-- C5: with a non-empty pattern, well-formed non-negative parameters, and a
registry in which every pattern provider succeeds and returns at least as
many items as demanded (each labeled with its provider), the output has
exactly `count` items and position `i` is sourced from the provider of
position `i` of the expanded sequence. -/
theorem c5_full_success_identity (app : App) (heap : Nat → Provider) (req : Request)
    (count offset : Nat)
    (hcount : goAtoi (req.query "count") = some (count : Int))
    (hoffset : goAtoi (req.query "offset") = some (offset : Int))
    (hpat : app.Config ≠ [])
    (hreg : ∀ c ∈ app.Config, ∃ cl, app.ContentClients c.typ = some cl ∧
      ∀ n : Nat, 1 ≤ n → ∃ l, cl req.remoteAddr n = Except.ok (some l) ∧
        n ≤ l.length ∧ ∀ x ∈ l, x.Source = c.typ) :
    ∃ out : List ContentItem,
      ServeHTTP app heap req =
        ⟨⟨some 200, [RespChunk.json out], [("content-type", "application/json")]⟩, false⟩ ∧
      out.length = count ∧
      ∀ i < count, ∃ c x, app.Config[(offset + i) % app.Config.length]? = some c ∧
        out[i]? = some x ∧ x.Source = c.typ := by
  apply pipeline_sources app heap req count offset hcount hoffset hpat (fun c => c.typ)
  intro c hc n hn
  obtain ⟨cl, hcl, hgood⟩ := hreg c hc
  obtain ⟨l, hl, hge, hlab⟩ := hgood n hn
  exact ⟨l, by simp only [fetchItemsForConfig, hcl, hl], hge, hlab⟩

/-- C6: a config whose primary provider always fails but whose configured
fallback succeeds with the demanded items has all its output positions
attributed to the fallback provider; all other positions and the total
length are as in the all-success case. -/
theorem c6_fallback_substitution (app : App) (heap : Nat → Provider) (req : Request)
    (count offset : Nat)
    (hcount : goAtoi (req.query "count") = some (count : Int))
    (hoffset : goAtoi (req.query "offset") = some (offset : Int))
    (hpat : app.Config ≠ [])
    (c0 : ContentConfig) (addr0 : Nat) (hfb : c0.Fallback = some addr0)
    (badCl : Client) (hbad : app.ContentClients c0.typ = some badCl)
    (hbadFails : ∀ n : Nat, badCl req.remoteAddr n = Except.error ())
    (fbCl : Client) (hfbCl : app.ContentClients (heap addr0) = some fbCl)
    (hfbGood : ∀ n : Nat, 1 ≤ n → ∃ l, fbCl req.remoteAddr n = Except.ok (some l) ∧
      n ≤ l.length ∧ ∀ x ∈ l, x.Source = heap addr0)
    (hothers : ∀ c ∈ app.Config, c ≠ c0 → ∃ cl, app.ContentClients c.typ = some cl ∧
      ∀ n : Nat, 1 ≤ n → ∃ l, cl req.remoteAddr n = Except.ok (some l) ∧
        n ≤ l.length ∧ ∀ x ∈ l, x.Source = c.typ) :
    ∃ out : List ContentItem,
      ServeHTTP app heap req =
        ⟨⟨some 200, [RespChunk.json out], [("content-type", "application/json")]⟩, false⟩ ∧
      out.length = count ∧
      ∀ i < count, ∃ c x, app.Config[(offset + i) % app.Config.length]? = some c ∧
        out[i]? = some x ∧ x.Source = (if c = c0 then heap addr0 else c.typ) := by
  apply pipeline_sources app heap req count offset hcount hoffset hpat
    (fun c => if c = c0 then heap addr0 else c.typ)
  intro c hc n hn
  by_cases hcc : c = c0
  · subst hcc
    obtain ⟨l, hl, hge, hlab⟩ := hfbGood n hn
    refine ⟨l, ?_, hge, ?_⟩
    · simp only [fetchItemsForConfig, hbad, hbadFails n, hfb, hfbCl, hl]
    · intro x hx
      simp only [if_pos rfl]
      exact hlab x hx
  · obtain ⟨cl, hcl, hgood⟩ := hothers c hc hcc
    obtain ⟨l, hl, hge, hlab⟩ := hgood n hn
    refine ⟨l, ?_, hge, ?_⟩
    · simp only [fetchItemsForConfig, hcl, hl]
    · intro x hx
      simp only [if_neg hcc]
      exact hlab x hx

/-- A provider client that always succeeds, returning exactly the demanded
number of items, each labeled with its provider (the shape of the
repository's `SampleContentProvider`). -/
def goodClient (p : Provider) : Client :=
  fun _ n => Except.ok (some (List.replicate n ⟨p, "payload"⟩))

/-- A provider client that always fails (the test file's
`FailingSampleProvider`, src/api_test.go lines 78 to 84). -/
def failingClient : Client := fun _ _ => Except.error ()

theorem goodClient_spec (p : Provider) (addr : String) (n : Nat) :
    ∃ l, goodClient p addr n = Except.ok (some l) ∧ n ≤ l.length ∧
      ∀ x ∈ l, x.Source = p := by
  refine ⟨List.replicate n ⟨p, "payload"⟩, rfl, by simp, ?_⟩
  intro x hx
  rw [List.eq_of_mem_replicate hx]

def app5 : App where
  ContentClients := fun p => if p = "p1" ∨ p = "p2" then some (goodClient p) else none
  Config := [⟨"p1", some 0⟩, ⟨"p2", none⟩]

def heap5 : Nat → Provider := fun _ => "p0"

def req5 : Request where
  query := fun p => if p = "count" then "5" else if p = "offset" then "2" else ""
  remoteAddr := "1.2.3.4"

theorem app5_hreg : ∀ c ∈ app5.Config, ∃ cl, app5.ContentClients c.typ = some cl ∧
    ∀ n : Nat, 1 ≤ n → ∃ l, cl req5.remoteAddr n = Except.ok (some l) ∧
      n ≤ l.length ∧ ∀ x ∈ l, x.Source = c.typ := by
  intro c hc
  rcases List.mem_cons.mp hc with rfl | hc2
  · exact ⟨goodClient "p1", rfl, fun n _ => goodClient_spec "p1" req5.remoteAddr n⟩
  · rcases List.mem_singleton.mp hc2 with rfl
    exact ⟨goodClient "p2", rfl, fun n _ => goodClient_spec "p2" req5.remoteAddr n⟩

theorem c5_witness :
    (goAtoi (req5.query "count") = some ((5 : Nat) : Int) ∧
     goAtoi (req5.query "offset") = some ((2 : Nat) : Int) ∧
     app5.Config ≠ []) ∧
    ∃ out : List ContentItem,
      ServeHTTP app5 heap5 req5 =
        ⟨⟨some 200, [RespChunk.json out], [("content-type", "application/json")]⟩, false⟩ ∧
      out.length = 5 ∧
      ∀ i < 5, ∃ c x, app5.Config[(2 + i) % app5.Config.length]? = some c ∧
        out[i]? = some x ∧ x.Source = c.typ :=
  ⟨⟨rfl, rfl, by decide⟩,
   c5_full_success_identity app5 heap5 req5 5 2 rfl rfl (by decide) app5_hreg⟩

def app6 : App where
  ContentClients := fun p => if p = "bad" then some failingClient
    else if p = "fb" ∨ p = "ok" then some (goodClient p) else none
  Config := [⟨"ok", none⟩, ⟨"bad", some 7⟩]

def heap6 : Nat → Provider := fun a => if a = 7 then "fb" else "p0"

def req6 : Request where
  query := fun p => if p = "count" then "4" else if p = "offset" then "0" else ""
  remoteAddr := "5.6.7.8"

theorem app6_hothers : ∀ c ∈ app6.Config, c ≠ (⟨"bad", some 7⟩ : ContentConfig) →
    ∃ cl, app6.ContentClients c.typ = some cl ∧
    ∀ n : Nat, 1 ≤ n → ∃ l, cl req6.remoteAddr n = Except.ok (some l) ∧
      n ≤ l.length ∧ ∀ x ∈ l, x.Source = c.typ := by
  intro c hc hne
  rcases List.mem_cons.mp hc with rfl | hc2
  · exact ⟨goodClient "ok", rfl, fun n _ => goodClient_spec "ok" req6.remoteAddr n⟩
  · rcases List.mem_singleton.mp hc2 with rfl
    exact absurd rfl hne

theorem app6_hfbGood : ∀ n : Nat, 1 ≤ n →
    ∃ l, goodClient "fb" req6.remoteAddr n = Except.ok (some l) ∧
      n ≤ l.length ∧ ∀ x ∈ l, x.Source = heap6 7 := by
  intro n _
  simpa [heap6] using goodClient_spec "fb" req6.remoteAddr n

theorem c6_witness :
    (goAtoi (req6.query "count") = some ((4 : Nat) : Int) ∧
     (⟨"bad", some 7⟩ : ContentConfig).Fallback = some 7 ∧
     app6.ContentClients (⟨"bad", some 7⟩ : ContentConfig).typ = some failingClient ∧
     app6.ContentClients (heap6 7) = some (goodClient "fb")) ∧
    ∃ out : List ContentItem,
      ServeHTTP app6 heap6 req6 =
        ⟨⟨some 200, [RespChunk.json out], [("content-type", "application/json")]⟩, false⟩ ∧
      out.length = 4 ∧
      ∀ i < 4, ∃ c x, app6.Config[(0 + i) % app6.Config.length]? = some c ∧
        out[i]? = some x ∧
        x.Source = (if c = (⟨"bad", some 7⟩ : ContentConfig) then heap6 7 else c.typ) :=
  ⟨⟨rfl, rfl, rfl, rfl⟩,
   c6_fallback_substitution app6 heap6 req6 4 0 rfl rfl (by decide)
     ⟨"bad", some 7⟩ 7 rfl failingClient rfl (fun _ => rfl)
     (goodClient "fb") rfl app6_hfbGood app6_hothers⟩

/-! ## The interleaver on short result sets, the nil-fallback panic, and
aggregation key semantics -/

def cxCfg : ContentConfig := ⟨"p1", none⟩

def cxItem : ContentItem := ⟨"p1", "x"⟩

/-- C1 counterexample: a non-nil result set that is shorter than its config's
number of occurrences does not stop the walk — the interleaver panics with an
index-out-of-range when the set runs out (the Go code only breaks on a `nil`
slice, and the pluck idiom `append(s[:0], s[1:]...)` leaves an exhausted
slice non-nil). -/
theorem c1_counterexample :
    generateListOfItemsToReturn [cxCfg, cxCfg]
      (fun c => if c = cxCfg then some [cxItem] else none) = Except.error () := rfl

/-- C1 (amended): when every configuration's result set is either Go `nil`
(the total-failure representation) or at least as long as the config's number
of occurrences, the interleaver walks the expanded sequence in order,
appends one item per position, stops immediately at the first position whose
config's result set is nil, and returns the contiguous prefix so mapped —
never a sparse or reordered subset.  (A non-nil result set merely shorter
than its occurrence count instead panics, see the counterexample.) -/
theorem c1_truncation_on_nil (order : List ContentConfig)
    (m : ContentConfig → Option (List ContentItem))
    (h : ∀ c ∈ order, m c = none ∨
      ∃ l, m c = some l ∧ countOcc c order ≤ l.length ∧ ∀ x ∈ l, x.Source = c.typ) :
    ∃ out : List ContentItem, generateListOfItemsToReturn order m = Except.ok out ∧
      out.length = availablePrefixLen m order ∧
      out.length ≤ order.length ∧
      ∀ (i : Nat) (c : ContentConfig) (x : ContentItem),
        order[i]? = some c → out[i]? = some x → x.Source = c.typ := by
  obtain ⟨out, h1, h2, h3⟩ := generateList_ok (fun c x => x.Source = c.typ) order m h
  refine ⟨out, h1, h2, ?_, h3⟩
  rw [h2]
  exact availablePrefixLen_le m order

def c1Order : List ContentConfig :=
  [⟨"p1", some 1⟩, ⟨"p1", some 1⟩, ⟨"p2", some 2⟩, ⟨"p3", some 1⟩, ⟨"p1", some 1⟩]

def c1Items : ContentConfig → Option (List ContentItem) := fun c =>
  if c = ⟨"p1", some 1⟩ then some [⟨"p1", "a"⟩, ⟨"p1", "b"⟩, ⟨"p1", "c"⟩]
  else if c = ⟨"p3", some 1⟩ then some [⟨"p3", "d"⟩]
  else none

theorem c1Items_hyp : ∀ c ∈ c1Order, c1Items c = none ∨
    ∃ l, c1Items c = some l ∧ countOcc c c1Order ≤ l.length ∧
      ∀ x ∈ l, x.Source = c.typ := by
  intro c hc
  fin_cases hc
  · exact Or.inr ⟨[⟨"p1", "a"⟩, ⟨"p1", "b"⟩, ⟨"p1", "c"⟩], rfl, by decide, by decide⟩
  · exact Or.inr ⟨[⟨"p1", "a"⟩, ⟨"p1", "b"⟩, ⟨"p1", "c"⟩], rfl, by decide, by decide⟩
  · exact Or.inl rfl
  · exact Or.inr ⟨[⟨"p3", "d"⟩], rfl, by decide, by decide⟩
  · exact Or.inr ⟨[⟨"p1", "a"⟩, ⟨"p1", "b"⟩, ⟨"p1", "c"⟩], rfl, by decide, by decide⟩

theorem c1_witness :
    (∀ c ∈ c1Order, c1Items c = none ∨
      ∃ l, c1Items c = some l ∧ countOcc c c1Order ≤ l.length ∧
        ∀ x ∈ l, x.Source = c.typ) ∧
    ∃ out : List ContentItem,
      generateListOfItemsToReturn c1Order c1Items = Except.ok out ∧
      out.length = availablePrefixLen c1Items c1Order ∧
      out.length ≤ c1Order.length ∧
      ∀ (i : Nat) (c : ContentConfig) (x : ContentItem),
        c1Order[i]? = some c → out[i]? = some x → x.Source = c.typ :=
  ⟨c1Items_hyp, c1_truncation_on_nil c1Order c1Items c1Items_hyp⟩

def app3 : App where
  ContentClients := fun p => if p = "p1" then some failingClient else none
  Config := [⟨"p1", none⟩]

def trivialHeap : Nat → Provider := fun _ => "p0"

/-- C3 counterexample: a config with NO fallback configured whose primary
fetch fails does not get an empty result set — `*confItem.Fallback`
dereferences a nil pointer and the goroutine panics, crashing the request. -/
theorem c3_counterexample :
    fetchItemsForConfig app3 trivialHeap ⟨"p1", none⟩ "1.1.1.1" 1 = Except.error () ∧
    ¬ fetchItemsForConfig app3 trivialHeap ⟨"p1", none⟩ "1.1.1.1" 1 =
        Except.ok (none : Option (List ContentItem)) :=
  ⟨rfl, fun h => Except.noConfusion h⟩

/-- C3 (amended): when a fallback IS configured and registered and both the
primary and the fallback fetch fail, the result set is the empty (nil) slice
and no panic or request-level error arises from it; with no fallback
configured, a primary failure instead panics on the nil fallback pointer
(see the counterexample). -/
theorem c3_double_failure_absorbed (app : App) (heap : Nat → Provider)
    (addr : String) (c : ContentConfig) (amount : Nat) (addrFb : Nat)
    (hfb : c.Fallback = some addrFb)
    (cl : Client) (hcl : app.ContentClients c.typ = some cl)
    (fbCl : Client) (hfbCl : app.ContentClients (heap addrFb) = some fbCl)
    (e1 e2 : Unit) (hfail : cl addr amount = Except.error e1)
    (hfbFail : fbCl addr amount = Except.error e2) :
    fetchItemsForConfig app heap c addr amount = Except.ok none := by
  simp only [fetchItemsForConfig, hcl, hfail, hfb, hfbCl, hfbFail]

def app3b : App where
  ContentClients := fun p => if p = "p1" ∨ p = "p2" then some failingClient else none
  Config := [⟨"p1", some 3⟩]

def heap3b : Nat → Provider := fun a => if a = 3 then "p2" else "p0"

theorem c3_witness :
    ((⟨"p1", some 3⟩ : ContentConfig).Fallback = some 3 ∧
     app3b.ContentClients (⟨"p1", some 3⟩ : ContentConfig).typ = some failingClient ∧
     app3b.ContentClients (heap3b 3) = some failingClient ∧
     failingClient "9.9.9.9" 2 = Except.error ()) ∧
    fetchItemsForConfig app3b heap3b ⟨"p1", some 3⟩ "9.9.9.9" 2 = Except.ok none :=
  ⟨⟨rfl, rfl, rfl, rfl⟩,
   c3_double_failure_absorbed app3b heap3b "9.9.9.9" ⟨"p1", some 3⟩ 2 3 rfl
     failingClient rfl failingClient rfl () () rfl rfl⟩

def heap8 : Nat → Provider := fun _ => "p2"

def cfg8a : ContentConfig := ⟨"p1", some 0⟩

def cfg8b : ContentConfig := ⟨"p1", some 1⟩

/-- C8 counterexample: two configs with equal `providerID` values and
fallback pointers that dereference (through `heap8`) to equal provider
values, but distinct pointer addresses, do NOT share a demand-map bucket:
the aggregator produces two entries of count 1 instead of one of count 2. -/
theorem c8_counterexample :
    heap8 0 = heap8 1 ∧ cfg8a.typ = cfg8b.typ ∧
    getContentCountsPerConfig [cfg8a, cfg8b] = [(cfg8a, 1), (cfg8b, 1)] ∧
    lookupCount (getContentCountsPerConfig [cfg8a, cfg8b]) cfg8a = some 1 :=
  ⟨rfl, rfl, rfl, rfl⟩

/-- C8 (amended): aggregation buckets follow Go map-key equality on
`ContentConfig` — structural on the `typ` field and on the fallback POINTER
(by address, nil distinct from every address) — so a config's bucket holds
exactly its number of Go-equal occurrences; configs whose fallback pointers
differ never share a bucket even when the pointed-to provider values are
equal. -/
theorem c8_aggregation_by_go_equality (order : ContentMix) (c : ContentConfig) :
    lookupCount (getContentCountsPerConfig order) c =
      if c ∈ order then some (countOcc c order) else none :=
  lookupCount_counts order c

/-! ## The two missing-early-return bugs in the handler -/

def app4 : App where
  ContentClients := fun p => if p = "p1" then some (goodClient p) else none
  Config := [⟨"p1", none⟩]

def req4bad : Request where
  query := fun p => if p = "count" then "abc" else if p = "offset" then "0" else ""
  remoteAddr := "ip"

def req4neg : Request where
  query := fun p => if p = "count" then "-1" else if p = "offset" then "0" else ""
  remoteAddr := "ip"

/-- C4 evidence: a malformed `count` does produce a 400 status, but the
handler does not stop: the mixing core still runs (with 0 substituted for
the malformed value) and appends its JSON output to the 400 response.  And a
negative `count=-1` is accepted outright — no 400, a 200 with an empty JSON
list — so non-negativity is not validated. -/
theorem c4_code_bug_evidence :
    ServeHTTP app4 trivialHeap req4bad =
      ⟨⟨some 400,
        [RespChunk.text "Please provide the count query parameter as number.",
         RespChunk.json []],
        [("content-type", "application/json")]⟩, false⟩ ∧
    ServeHTTP app4 trivialHeap req4neg =
      ⟨⟨some 200, [RespChunk.json []], [("content-type", "application/json")]⟩, false⟩ :=
  ⟨rfl, rfl⟩

def app7 : App where
  ContentClients := fun _ => none
  Config := []

def req7a : Request where
  query := fun p => if p = "count" then "0" else if p = "offset" then "0" else ""
  remoteAddr := "ip"

def req7b : Request where
  query := fun p => if p = "count" then "1" else if p = "offset" then "0" else ""
  remoteAddr := "ip"

/-- C7 evidence: an empty pattern does produce a 500 with the diagnostic
message, but processing does not stop there: with `count=0` the whole core
still runs and appends a JSON body to the 500 response; with `count=1` the
handler goes on to index into the empty pattern and panics. -/
theorem c7_code_bug_evidence :
    ServeHTTP app7 trivialHeap req7a =
      ⟨⟨some 500,
        [RespChunk.text "Something went wrong. Sorry! The app configuration is empty.",
         RespChunk.json []],
        [("content-type", "application/json")]⟩, false⟩ ∧
    ServeHTTP app7 trivialHeap req7b =
      ⟨⟨some 500,
        [RespChunk.text "Something went wrong. Sorry! The app configuration is empty."],
        []⟩, true⟩ :=
  ⟨rfl, rfl⟩
